import Mathlib

/-
Verification of the Reference & Structural Integrity Engine of
open-claude-for-excel.

The repository ships only the tool-facing wrappers
(`src/open_claude_for_excel/tools/tools.py`); the engine modules they call
(`tools.sheet`, `tools.validation`, `tools.calculations`, ...) are not part
of the reviewed sources.  Where a definition embeds one of those missing
modules it is modelled from the specification's words and its doc comment
says so.  `getExcelPath` at the end of the file embeds the real
`get_excel_path` function from `tools/tools.py`.
-/

namespace ExcelEngine

/-! ## Character helpers for the address codec -/

/-- Modelled from the spec: letters encode columns in bijective base 26,
`A = 1 … Z = 26`; `letterChar d` is the letter for digit `d` (0-based). -/
def letterChar (d : Nat) : Char := Char.ofNat (65 + d)

/-- Modelled from the spec: case-insensitive letter value, `A`/`a` ↦ 0 …
`Z`/`z` ↦ 25; `none` for non-letters. -/
def charVal (c : Char) : Option Nat :=
  if 65 ≤ c.toNat ∧ c.toNat ≤ 90 then some (c.toNat - 65)
  else if 97 ≤ c.toNat ∧ c.toNat ≤ 122 then some (c.toNat - 97)
  else none

/-- Decimal digit character for a value `0 … 9`. -/
def digitChar (d : Nat) : Char := Char.ofNat (48 + d)

/-- Decimal digit value of a character; `none` for non-digits. -/
def digitVal (c : Char) : Option Nat :=
  if 48 ≤ c.toNat ∧ c.toNat ≤ 57 then some (c.toNat - 48) else none

/-- A character is a letter when it has a letter value. -/
def isAlphaChar (c : Char) : Bool := (charVal c).isSome

/-- Uppercasing used by the canonical address form: letters are mapped
through their value, other characters are untouched. -/
def upperChar (c : Char) : Char :=
  match charVal c with
  | some v => letterChar v
  | none => c

/-! ## Bijective base-26 column codec and base-10 row codec -/

/-- Fuel-bounded helper for `colLettersN`; the fuel is structural so
that the kernel can evaluate the codec on concrete inputs. -/
def colLettersNF : Nat → Nat → List Nat
  | _, 0 => []
  | 0, _ + 1 => []
  | f + 1, n + 1 => colLettersNF f (n / 26) ++ [n % 26]

/-- Modelled from the spec: the bijective base-26 digit string (0-based
digits, most significant first) of a 1-based column number. -/
def colLettersN (n : Nat) : List Nat := colLettersNF n n

theorem colLettersNF_fuel :
    ∀ n f f', n ≤ f → n ≤ f' → colLettersNF f n = colLettersNF f' n := by
  intro n
  induction n using Nat.strong_induction_on with
  | _ n ih =>
    intro f f' hf hf'
    match n, f, f', hf, hf' with
    | 0, f, f', _, _ => cases f <;> cases f' <;> rfl
    | n + 1, f + 1, f' + 1, hf, hf' =>
      show colLettersNF f (n / 26) ++ [n % 26]
        = colLettersNF f' (n / 26) ++ [n % 26]
      rw [ih (n / 26) (by omega) f f' (by omega) (by omega)]

/-- Unfolding equation for `colLettersN` at a positive input. -/
theorem colLettersN_succ (n : Nat) :
    colLettersN (n + 1) = colLettersN (n / 26) ++ [n % 26] := by
  show colLettersNF n (n / 26) ++ [n % 26] = colLettersNF (n / 26) (n / 26) ++ _
  rw [colLettersNF_fuel (n / 26) n (n / 26) (by omega) (by omega)]

/-- Modelled from the spec: column number of a list of 0-based letter
digits, `A = 1 … Z = 26, AA = 27 …`. -/
def lettersValN (ds : List Nat) : Nat :=
  ds.foldl (fun a d => a * 26 + (d + 1)) 0

/-- Fuel-bounded helper for `natDigitsN`. -/
def natDigitsNF : Nat → Nat → List Nat
  | _, 0 => []
  | 0, _ + 1 => []
  | f + 1, n + 1 => natDigitsNF f ((n + 1) / 10) ++ [(n + 1) % 10]

/-- Base-10 digit list (most significant first) of a natural number;
empty for 0. -/
def natDigitsN (n : Nat) : List Nat := natDigitsNF n n

theorem natDigitsNF_fuel :
    ∀ n f f', n ≤ f → n ≤ f' → natDigitsNF f n = natDigitsNF f' n := by
  intro n
  induction n using Nat.strong_induction_on with
  | _ n ih =>
    intro f f' hf hf'
    match n, f, f', hf, hf' with
    | 0, f, f', _, _ => cases f <;> cases f' <;> rfl
    | n + 1, f + 1, f' + 1, hf, hf' =>
      show natDigitsNF f ((n + 1) / 10) ++ [(n + 1) % 10]
        = natDigitsNF f' ((n + 1) / 10) ++ [(n + 1) % 10]
      rw [ih ((n + 1) / 10) (by omega) f f' (by omega) (by omega)]

/-- Unfolding equation for `natDigitsN` at a positive input. -/
theorem natDigitsN_succ (n : Nat) :
    natDigitsN (n + 1) = natDigitsN ((n + 1) / 10) ++ [(n + 1) % 10] := by
  show natDigitsNF n ((n + 1) / 10) ++ _ = natDigitsNF ((n + 1) / 10) ((n + 1) / 10) ++ _
  rw [natDigitsNF_fuel ((n + 1) / 10) n ((n + 1) / 10) (by omega) (by omega)]

/-- Value of a base-10 digit list. -/
def digitsValN (ds : List Nat) : Nat :=
  ds.foldl (fun a d => a * 10 + d) 0

theorem lettersValN_append_single (ds : List Nat) (d : Nat) :
    lettersValN (ds ++ [d]) = lettersValN ds * 26 + (d + 1) := by
  simp [lettersValN, List.foldl_append]

theorem digitsValN_append_single (ds : List Nat) (d : Nat) :
    digitsValN (ds ++ [d]) = digitsValN ds * 10 + d := by
  simp [digitsValN, List.foldl_append]

theorem lettersValN_colLettersN : ∀ n, lettersValN (colLettersN n) = n := by
  intro n
  induction n using Nat.strong_induction_on with
  | _ n ih =>
    match n with
    | 0 => simp [colLettersN, colLettersNF, lettersValN]
    | n + 1 =>
      rw [colLettersN_succ, lettersValN_append_single,
        ih (n / 26) (Nat.lt_succ_of_le (Nat.div_le_self n 26))]
      omega

theorem digitsValN_natDigitsN : ∀ n, digitsValN (natDigitsN n) = n := by
  intro n
  induction n using Nat.strong_induction_on with
  | _ n ih =>
    match n with
    | 0 => simp [natDigitsN, natDigitsNF, digitsValN]
    | n + 1 =>
      rw [natDigitsN_succ, digitsValN_append_single,
        ih ((n + 1) / 10) (Nat.div_lt_self (Nat.succ_pos n) (by omega))]
      omega

theorem colLettersN_lt : ∀ n, ∀ d ∈ colLettersN n, d < 26 := by
  intro n
  induction n using Nat.strong_induction_on with
  | _ n ih =>
    match n with
    | 0 => simp [colLettersN, colLettersNF]
    | n + 1 =>
      rw [colLettersN_succ]
      intro d hd
      rcases List.mem_append.1 hd with h | h
      · exact ih (n / 26) (Nat.lt_succ_of_le (Nat.div_le_self n 26)) d h
      · simp only [List.mem_singleton] at h
        omega

theorem natDigitsN_lt : ∀ n, ∀ d ∈ natDigitsN n, d < 10 := by
  intro n
  induction n using Nat.strong_induction_on with
  | _ n ih =>
    match n with
    | 0 => simp [natDigitsN, natDigitsNF]
    | n + 1 =>
      rw [natDigitsN_succ]
      intro d hd
      rcases List.mem_append.1 hd with h | h
      · exact ih ((n + 1) / 10) (Nat.div_lt_self (Nat.succ_pos n) (by omega)) d h
      · simp only [List.mem_singleton] at h
        omega

theorem colLettersN_ne_nil (n : Nat) (h : 1 ≤ n) : colLettersN n ≠ [] := by
  match n, h with
  | n + 1, _ => rw [colLettersN_succ]; simp

theorem natDigitsN_ne_nil (n : Nat) (h : 1 ≤ n) : natDigitsN n ≠ [] := by
  match n, h with
  | n + 1, _ => rw [natDigitsN_succ]; simp

theorem lettersValN_pos (ds : List Nat) (h : ds ≠ []) : 1 ≤ lettersValN ds := by
  rcases List.eq_nil_or_concat ds with rfl | ⟨L, b, rfl⟩
  · exact absurd rfl h
  · rw [List.concat_eq_append, lettersValN_append_single]; omega

/-- The other direction of the letter round trip: a digit list with
digits below 26 is recovered from its value. -/
theorem colLettersN_lettersValN :
    ∀ ds : List Nat, (∀ d ∈ ds, d < 26) →
      colLettersN (lettersValN ds) = ds := by
  intro ds
  induction ds using List.reverseRecOn with
  | nil => intro _; simp [lettersValN, colLettersN, colLettersNF]
  | append_singleton L d ih =>
    intro hlt
    have hd : d < 26 := hlt d (by simp)
    rw [lettersValN_append_single]
    have hv : lettersValN L * 26 + (d + 1) = (lettersValN L * 26 + d) + 1 := by omega
    rw [hv, colLettersN_succ]
    have hdiv : (lettersValN L * 26 + d) / 26 = lettersValN L := by
      omega
    have hmod : (lettersValN L * 26 + d) % 26 = d := by
      omega
    rw [hdiv, hmod, ih (fun x hx => hlt x (List.mem_append_left _ hx))]

/-! ## CellAddress and the address codec -/

/-- Modelled from the spec: a cell address, `column ≥ 1`, `row ≥ 1`
(bounds are checked by the parser, not baked into the type). -/
structure CellAddress where
  column : Nat
  row : Nat
deriving DecidableEq, Repr

/-- Modelled from the spec: the data-model invariant on addresses,
`1 ≤ column ≤ 16384` and `1 ≤ row ≤ 1048576`. -/
def validAddr (a : CellAddress) : Prop :=
  1 ≤ a.column ∧ a.column ≤ 16384 ∧ 1 ≤ a.row ∧ a.row ≤ 1048576

instance (a : CellAddress) : Decidable (validAddr a) := by
  unfold validAddr; infer_instance

/-- Modelled from the spec: `encode(address) -> text`, the canonical
uppercase-letters-then-1-based-row form (the `CellAddress` codec is in
the engine modules absent from the reviewed sources). -/
def encodeAddr (a : CellAddress) : String :=
  String.mk ((colLettersN a.column).map letterChar ++
    (natDigitsN a.row).map digitChar)

/-- Modelled from the spec: `parse(text) -> CellAddress`, accepting
letters then digits, case-insensitive letters, failing (`none`, standing
for `MalformedReference`) when letters or digits are missing, out of
order, or out of bounds. -/
def parseAddr (t : String) : Option CellAddress :=
  let cs := t.data
  let L := cs.takeWhile isAlphaChar
  let R := cs.dropWhile isAlphaChar
  if L = [] then none
  else
    match R.mapM digitVal with
    | none => none
    | some ds =>
      if ds = [] then none
      else
        let col := lettersValN (L.map (fun c => (charVal c).getD 0))
        let row := digitsValN ds
        if col ≤ 16384 ∧ 1 ≤ row ∧ row ≤ 1048576 then
          some ⟨col, row⟩
        else none

/-- Modelled from the spec: the canonical form of an address text —
its letter prefix uppercased followed by the decimal numeral of its row
(leading zeros dropped). -/
def canonicalForm (t : String) : String :=
  let cs := t.data
  let L := cs.takeWhile isAlphaChar
  let R := cs.dropWhile isAlphaChar
  String.mk (L.map upperChar ++
    (natDigitsN (digitsValN (R.map (fun c => (digitVal c).getD 0)))).map digitChar)

/-! ### Character-level facts (finite checks) -/

theorem charVal_letterChar : ∀ d, d < 26 → charVal (letterChar d) = some d := by
  decide

theorem isAlphaChar_letterChar : ∀ d, d < 26 → isAlphaChar (letterChar d) = true := by
  decide

theorem isAlphaChar_digitChar : ∀ d, d < 10 → isAlphaChar (digitChar d) = false := by
  decide

theorem digitVal_digitChar : ∀ d, d < 10 → digitVal (digitChar d) = some d := by
  decide

theorem upperChar_of_charVal (c : Char) (v : Nat) (h : charVal c = some v) :
    upperChar c = letterChar v := by
  unfold upperChar
  rw [h]

theorem charVal_lt (c : Char) (v : Nat) (h : charVal c = some v) : v < 26 := by
  unfold charVal at h
  split at h
  · next h' => simp only [Option.some.injEq] at h; omega
  · split at h
    · next h' => simp only [Option.some.injEq] at h; omega
    · exact absurd h (by simp)

/-! ### takeWhile / dropWhile over a clean split -/

theorem takeWhile_append_all {p : Char → Bool} :
    ∀ l₁ l₂ : List Char, (∀ a ∈ l₁, p a = true) →
      (l₁ ++ l₂).takeWhile p = l₁ ++ l₂.takeWhile p := by
  intro l₁ l₂ h
  induction l₁ with
  | nil => simp
  | cons a l ih =>
    simp only [List.cons_append, List.takeWhile_cons, h a (by simp)]
    rw [ih (fun x hx => h x (by simp [hx]))]
    simp

theorem dropWhile_append_all {p : Char → Bool} :
    ∀ l₁ l₂ : List Char, (∀ a ∈ l₁, p a = true) →
      (l₁ ++ l₂).dropWhile p = l₂.dropWhile p := by
  intro l₁ l₂ h
  induction l₁ with
  | nil => simp
  | cons a l ih =>
    simp only [List.cons_append, List.dropWhile_cons, h a (by simp)]
    exact ih (fun x hx => h x (by simp [hx]))

theorem takeWhile_eq_nil_of_head {p : Char → Bool} (a : Char) (l : List Char)
    (h : p a = false) : (a :: l).takeWhile p = [] := by
  simp [List.takeWhile_cons, h]

theorem mapM_digitVal_map_digitChar :
    ∀ ds : List Nat, (∀ d ∈ ds, d < 10) →
      (ds.map digitChar).mapM digitVal = some ds := by
  intro ds h
  induction ds with
  | nil => rfl
  | cons d rest ih =>
    simp only [List.map_cons, List.mapM_cons, digitVal_digitChar d (h d (by simp)),
      ih (fun x hx => h x (by simp [hx]))]
    rfl

theorem mapM_some_eq_map_getD {f : Char → Option Nat} :
    ∀ (l : List Char) (ds : List Nat), l.mapM f = some ds →
      ds = l.map (fun c => (f c).getD 0) := by
  intro l
  induction l with
  | nil => intro ds h; simp only [List.mapM_nil, Option.pure_def, Option.some.injEq] at h
           simp [← h]
  | cons a rest ih =>
    intro ds h
    simp only [List.mapM_cons] at h
    match hf : f a with
    | none => rw [hf] at h; simp at h
    | some v =>
      rw [hf] at h
      simp only [Option.pure_def, Option.bind_eq_bind, Option.some_bind] at h
      match hr : rest.mapM f with
      | none => rw [hr] at h; simp at h
      | some ds' =>
        rw [hr] at h
        simp only [Option.some_bind, Option.some.injEq] at h
        rw [← h, List.map_cons, hf, ih ds' hr]
        rfl

theorem mem_takeWhile_sat {p : Char → Bool} :
    ∀ l : List Char, ∀ a ∈ l.takeWhile p, p a = true := by
  intro l
  induction l with
  | nil => simp
  | cons b rest ih =>
    intro a ha
    rw [List.takeWhile_cons] at ha
    by_cases hb : p b = true
    · rw [if_pos hb] at ha
      rcases List.mem_cons.1 ha with rfl | h
      · exact hb
      · exact ih a h
    · rw [if_neg hb] at ha
      exact absurd ha (List.not_mem_nil a)

theorem parseAddr_encodeAddr (a : CellAddress) (h : validAddr a) :
    parseAddr (encodeAddr a) = some a := by
  obtain ⟨h1, h2, h3, h4⟩ := h
  have hCLlt := colLettersN_lt a.column
  have hDGlt := natDigitsN_lt a.row
  have hCLne : colLettersN a.column ≠ [] := colLettersN_ne_nil _ h1
  have hDGne : natDigitsN a.row ≠ [] := natDigitsN_ne_nil _ h3
  have halpha : ∀ c ∈ (colLettersN a.column).map letterChar, isAlphaChar c = true := by
    intro c hc
    obtain ⟨d, hd, rfl⟩ := List.mem_map.1 hc
    exact isAlphaChar_letterChar d (hCLlt d hd)
  have htake : ((colLettersN a.column).map letterChar ++
      (natDigitsN a.row).map digitChar).takeWhile isAlphaChar
      = (colLettersN a.column).map letterChar := by
    rw [takeWhile_append_all _ _ halpha]
    rcases hx : natDigitsN a.row with _ | ⟨d0, rest⟩
    · exact absurd hx hDGne
    · have hd0 : d0 < 10 := hDGlt d0 (by rw [hx]; simp)
      simp only [List.map_cons]
      rw [takeWhile_eq_nil_of_head _ _ (isAlphaChar_digitChar d0 hd0), List.append_nil]
  have hdrop : ((colLettersN a.column).map letterChar ++
      (natDigitsN a.row).map digitChar).dropWhile isAlphaChar
      = (natDigitsN a.row).map digitChar := by
    rw [dropWhile_append_all _ _ halpha]
    rcases hx : natDigitsN a.row with _ | ⟨d0, rest⟩
    · exact absurd hx hDGne
    · have hd0 : d0 < 10 := hDGlt d0 (by rw [hx]; simp)
      simp only [List.map_cons, List.dropWhile_cons]
      simp [isAlphaChar_digitChar d0 hd0]
  have hmapM : ((natDigitsN a.row).map digitChar).mapM digitVal
      = some (natDigitsN a.row) := mapM_digitVal_map_digitChar _ hDGlt
  have hcolmap : ((colLettersN a.column).map letterChar).map
      (fun c => (charVal c).getD 0) = colLettersN a.column := by
    rw [List.map_map]
    have hpt : ∀ d ∈ colLettersN a.column,
        ((fun c => (charVal c).getD 0) ∘ letterChar) d = id d := by
      intro d hd
      simp [Function.comp, charVal_letterChar d (hCLlt d hd)]
    rw [List.map_congr_left hpt, List.map_id]
  have hLne : (colLettersN a.column).map letterChar ≠ [] := by
    simpa using hCLne
  unfold parseAddr encodeAddr
  simp only [htake, hdrop, hmapM, if_neg hLne, if_neg hDGne, hcolmap,
    lettersValN_colLettersN, digitsValN_natDigitsN]
  rw [if_pos ⟨h2, h3, h4⟩]

theorem encodeAddr_parseAddr (t : String) (a : CellAddress)
    (h : parseAddr t = some a) : encodeAddr a = canonicalForm t := by
  unfold parseAddr at h
  by_cases hL : t.data.takeWhile isAlphaChar = []
  · simp only [if_pos hL] at h
    exact absurd h (by simp)
  · simp only [if_neg hL] at h
    split at h
    · exact absurd h (by simp)
    · next ds hM =>
      by_cases hds : ds = []
      · simp only [if_pos hds] at h
        exact absurd h (by simp)
      · simp only [if_neg hds] at h
        split at h
        · next hbounds =>
          injection h with h'
          subst h'
          have hds_eq : ds = (t.data.dropWhile isAlphaChar).map
              (fun c => (digitVal c).getD 0) := mapM_some_eq_map_getD _ _ hM
          have hvals : ∀ d ∈ (t.data.takeWhile isAlphaChar).map
              (fun c => (charVal c).getD 0), d < 26 := by
            intro d hd
            obtain ⟨c, hc, rfl⟩ := List.mem_map.1 hd
            have hA : isAlphaChar c = true := mem_takeWhile_sat _ c hc
            unfold isAlphaChar at hA
            match hv : charVal c with
            | none => rw [hv] at hA; simp at hA
            | some v =>
              simpa using charVal_lt c v hv
          simp only [encodeAddr, canonicalForm]
          rw [← hds_eq, colLettersN_lettersValN _ hvals, List.map_map]
          have hXY : (t.data.takeWhile isAlphaChar).map
              (letterChar ∘ fun c => (charVal c).getD 0)
              = (t.data.takeWhile isAlphaChar).map upperChar := by
            apply List.map_congr_left
            intro c hc
            have hA : isAlphaChar c = true := mem_takeWhile_sat _ c hc
            unfold isAlphaChar at hA
            match hv : charVal c with
            | none => rw [hv] at hA; simp at hA
            | some v =>
              simp [Function.comp, hv, upperChar]
          rw [hXY]
        · exact absurd h (by simp)

/-- C4: for every valid cell address `a`, `parse (encode a) = a`, and for
every parseable address text `t`, `encode (parse t)` is the canonical
uppercase-letters-then-1-based-row form of `t`. -/
theorem addr_codec_round_trip :
    (∀ a : CellAddress, validAddr a → parseAddr (encodeAddr a) = some a) ∧
    (∀ (t : String) (a : CellAddress), parseAddr t = some a →
      encodeAddr a = canonicalForm t) :=
  ⟨parseAddr_encodeAddr, encodeAddr_parseAddr⟩

/-- Witness for C4 at concrete inputs: the address `AB5` round-trips and
`"a01"` parses to `A1` whose encoding is the canonical form of `"a01"`. -/
theorem addr_codec_round_trip_witness :
    parseAddr (encodeAddr ⟨28, 5⟩) = some ⟨28, 5⟩ ∧
      encodeAddr ⟨1, 1⟩ = canonicalForm "a01" :=
  ⟨addr_codec_round_trip.1 ⟨28, 5⟩ (by decide),
    addr_codec_round_trip.2 "a01" ⟨1, 1⟩ (by decide)⟩

/-! ## Formula references, tokens, and the rewrite policies -/

/-- Modelled from the spec: a reference token found inside a formula
string: coordinates with per-axis absolute flags and an optional sheet
qualifier (§3 FormulaReference); the rewriter implementation itself is
absent from the reviewed sources. -/
structure FormulaReference where
  sheet : Option String
  colAbs : Bool
  col : Nat
  rowAbs : Bool
  row : Nat
deriving DecidableEq, Repr

/-- Modelled from the spec: the tokenizer splits a formula string into
reference tokens and remaining literal characters. -/
inductive FormulaToken where
  | lit (c : Char)
  | ref (r : FormulaReference)
deriving DecidableEq, Repr

/-- A reference targets the sheet being mutated when it is unqualified
(it then names the formula's own sheet, which is the mutated one) or its
qualifier names that sheet (§4.3). -/
def refOnSheet (mutSheet : String) (r : FormulaReference) : Bool :=
  match r.sheet with
  | none => true
  | some s => s == mutSheet

/-- Modelled from the spec: structural-shift policy for an insertion of
`n` columns at position `p` — a same-sheet reference with column `≥ p`
is increased by `n` regardless of its absolute flag (§4.3). -/
def insertShiftRefCols (mutSheet : String) (p n : Nat) (r : FormulaReference) :
    FormulaReference :=
  if refOnSheet mutSheet r ∧ p ≤ r.col then { r with col := r.col + n } else r

/-- Modelled from the spec: structural-shift policy for an insertion of
`n` rows at position `p` (§4.3). -/
def insertShiftRefRows (mutSheet : String) (p n : Nat) (r : FormulaReference) :
    FormulaReference :=
  if refOnSheet mutSheet r ∧ p ≤ r.row then { r with row := r.row + n } else r

/-- Modelled from the spec: structural-shift policy for a deletion of
`n` columns starting at `p` — a same-sheet reference strictly inside
`[p, p+n)` becomes unresolvable (`none`), one `≥ p+n` decreases by `n`,
one `< p` is untouched (§4.3). -/
def deleteShiftRefCols (mutSheet : String) (p n : Nat) (r : FormulaReference) :
    Option FormulaReference :=
  if refOnSheet mutSheet r then
    if r.col < p then some r
    else if r.col < p + n then none
    else some { r with col := r.col - n }
  else some r

/-- Modelled from the spec: structural-shift policy for a deletion of
`n` rows starting at `p` (§4.3). -/
def deleteShiftRefRows (mutSheet : String) (p n : Nat) (r : FormulaReference) :
    Option FormulaReference :=
  if refOnSheet mutSheet r then
    if r.row < p then some r
    else if r.row < p + n then none
    else some { r with row := r.row - n }
  else some r

/-- Modelled from the spec: copy-translate policy with delta `(dc, dr)` —
an axis with `absolute = false` is offset by the corresponding delta, an
axis with `absolute = true` is left unchanged; the result is unresolvable
(`none`) when an offset coordinate would fall below 1 (§4.3). -/
def translateRef (dc dr : Int) (r : FormulaReference) : Option FormulaReference :=
  if 1 ≤ (if r.colAbs then (r.col : Int) else (r.col : Int) + dc) ∧
      1 ≤ (if r.rowAbs then (r.row : Int) else (r.row : Int) + dr) then
    some { r with
      col := (if r.colAbs then (r.col : Int) else (r.col : Int) + dc).toNat,
      row := (if r.rowAbs then (r.row : Int) else (r.row : Int) + dr).toNat }
  else none

/-- Copy-translate on one reference, leaving cross-sheet-qualified
references untouched (§4.3). -/
def translateGatedRef (dc dr : Int) (r : FormulaReference) :
    Option FormulaReference :=
  match r.sheet with
  | some _ => some r
  | none => translateRef dc dr r

/-- Apply a total per-reference transformation to every reference token
of a formula. -/
def mapRefsToks (f : FormulaReference → FormulaReference) :
    List FormulaToken → List FormulaToken :=
  List.map fun t =>
    match t with
    | .lit c => .lit c
    | .ref r => .ref (f r)

/-- Apply a fallible per-reference transformation to every reference
token of a formula; `none` when any reference becomes unresolvable. -/
def mapRefsToksOpt (f : FormulaReference → Option FormulaReference) :
    List FormulaToken → Option (List FormulaToken)
  | [] => some []
  | .lit c :: ts => (mapRefsToksOpt f ts).map (.lit c :: ·)
  | .ref r :: ts =>
    match f r with
    | none => none
    | some r' => (mapRefsToksOpt f ts).map (.ref r' :: ·)

/-! ## Tokenizer and printer for formula text -/

/-- One reference-shaped prefix of a character list: optional `$`,
letters, optional `$`, digits; returns the reference and the rest. -/
def refAtHead (cs : List Char) : Option (FormulaReference × List Char) :=
  let (colDollar, cs1) :=
    match cs with
    | '$' :: rest => (true, rest)
    | _ => (false, cs)
  let L := cs1.takeWhile isAlphaChar
  let cs2 := cs1.dropWhile isAlphaChar
  if L = [] then none
  else
    let (rowDollar, cs3) :=
      match cs2 with
      | '$' :: rest => (true, rest)
      | _ => (false, cs2)
    let D := cs3.takeWhile (fun c => (digitVal c).isSome)
    let cs4 := cs3.dropWhile (fun c => (digitVal c).isSome)
    if D = [] then none
    else
      some (⟨none, colDollar, lettersValN (L.map (fun c => (charVal c).getD 0)),
        rowDollar, digitsValN (D.map (fun c => (digitVal c).getD 0))⟩, cs4)

/-- Modelled from the spec: the tokenizer walks the formula text,
copies string literals (`"…"`) verbatim as literal characters without
looking for references inside them, recognizes `$`-marked mixed
absolute/relative references per axis, and leaves every other character
as a literal (§4.3).  `fuel` bounds the recursion by the input length. -/
def tokenizeAux : Nat → List Char → List FormulaToken
  | 0, _ => []
  | _, [] => []
  | fuel + 1, '"' :: rest =>
    let inner := rest.takeWhile (fun c => c ≠ '"')
    let rest2 := rest.dropWhile (fun c => c ≠ '"')
    match rest2 with
    | '"' :: rest3 =>
      (.lit '"' :: inner.map .lit ++ [.lit '"']) ++ tokenizeAux fuel rest3
    | _ => .lit '"' :: inner.map .lit
  | fuel + 1, c :: rest =>
    match refAtHead (c :: rest) with
    | some (r, rest') => .ref r :: tokenizeAux fuel rest'
    | none => .lit c :: tokenizeAux fuel rest

/-- Tokenize a formula string. -/
def tokenize (s : String) : List FormulaToken :=
  tokenizeAux s.data.length s.data

/-- Print one token back to characters, references in canonical
`$`-marked letters-then-digits form. -/
def printToken : FormulaToken → List Char
  | .lit c => [c]
  | .ref r =>
    (match r.sheet with
      | some s => s.data ++ ['!']
      | none => []) ++
    (if r.colAbs then ['$'] else []) ++ (colLettersN r.col).map letterChar ++
    (if r.rowAbs then ['$'] else []) ++ (natDigitsN r.row).map digitChar

/-- Print a token list back to formula text. -/
def printFormula (ts : List FormulaToken) : String :=
  String.mk (ts.map printToken).flatten

/-! ## Grid data model -/

/-- Modelled from the spec: an axis-aligned cell range, normalized so
`start.column ≤ stop.column` and `start.row ≤ stop.row` (§3). -/
structure CellRange where
  start : CellAddress
  stop : CellAddress
deriving DecidableEq, Repr

/-- A range is normalized when its corners are ordered on both axes. -/
def rangeNormalized (rng : CellRange) : Prop :=
  rng.start.column ≤ rng.stop.column ∧ rng.start.row ≤ rng.stop.row

instance (rng : CellRange) : Decidable (rangeNormalized rng) := by
  unfold rangeNormalized; infer_instance

/-- Modelled from the spec: a data-validation rule with its range, kind
and criteria (§3). -/
structure ValidationRule where
  range : CellRange
  kind : String
  criteria : String
deriving DecidableEq, Repr

/-- Modelled from the spec: a cell holds a plain value or a formula;
a formula whose referenced cells were deleted is replaced by a
`BrokenReference` marker carrying the original formula (§4.3, §7). -/
inductive CellContent where
  | value (v : String)
  | formula (toks : List FormulaToken)
  | broken (orig : List FormulaToken)
deriving DecidableEq, Repr

/-- Modelled from the spec: the in-memory working state for one
worksheet — sparse cells keyed by address, merged regions and
validation rules (§3 SheetGrid). -/
structure SheetGrid where
  sheetName : String
  cells : List (CellAddress × CellContent)
  merges : List CellRange
  validations : List ValidationRule
deriving DecidableEq, Repr

/-- Lookup in a sparse cell association list. -/
def lookupA : List (CellAddress × CellContent) → CellAddress → Option CellContent
  | [], _ => none
  | (k, v) :: rest, a => if k = a then some v else lookupA rest a

/-- Write into a sparse cell association list, replacing an existing
entry for the key or appending a new one. -/
def setA : List (CellAddress × CellContent) → CellAddress → CellContent →
    List (CellAddress × CellContent)
  | [], a, v => [(a, v)]
  | (k, w) :: rest, a, v =>
    if k = a then (a, v) :: rest else (k, w) :: setA rest a v

/-- Content of a cell of a grid, `none` when the cell is unset. -/
def lookupCell (g : SheetGrid) (a : CellAddress) : Option CellContent :=
  lookupA g.cells a

/-! ## Structural mutation: insert -/

/-- Modelled from the spec: how an insertion of `n` rows at `p` moves a
range — a range wholly at or beyond `p` is shifted whole, one straddling
`p` has only its far corner shifted, widening it (§4.4, §4.5 `shift_all`,
shared by merges and validations). -/
def insertShiftRangeRows (p n : Nat) (rng : CellRange) : CellRange :=
  if p ≤ rng.start.row then
    ⟨⟨rng.start.column, rng.start.row + n⟩, ⟨rng.stop.column, rng.stop.row + n⟩⟩
  else if p ≤ rng.stop.row then
    ⟨rng.start, ⟨rng.stop.column, rng.stop.row + n⟩⟩
  else rng

/-- Modelled from the spec: the column-axis version of
`insertShiftRangeRows`. -/
def insertShiftRangeCols (p n : Nat) (rng : CellRange) : CellRange :=
  if p ≤ rng.start.column then
    ⟨⟨rng.start.column + n, rng.start.row⟩, ⟨rng.stop.column + n, rng.stop.row⟩⟩
  else if p ≤ rng.stop.column then
    ⟨rng.start, ⟨rng.stop.column + n, rng.stop.row⟩⟩
  else rng

/-- Structural row-insert rewrite of one cell's content: formulas go
through the structural-shift policy, values and already-broken markers
are untouched. -/
def insertShiftContentRows (mutSheet : String) (p n : Nat) :
    CellContent → CellContent
  | .value v => .value v
  | .formula ts => .formula (mapRefsToks (insertShiftRefRows mutSheet p n) ts)
  | .broken o => .broken o

/-- Structural column-insert rewrite of one cell's content. -/
def insertShiftContentCols (mutSheet : String) (p n : Nat) :
    CellContent → CellContent
  | .value v => .value v
  | .formula ts => .formula (mapRefsToks (insertShiftRefCols mutSheet p n) ts)
  | .broken o => .broken o

/-- Modelled from the spec: insert `n` rows at 1-based position `p` —
every cell at or beyond `p` is relocated by `+n`, merges and validations
are shifted by the shared routine, and every formula goes through the
structural-shift policy (§4.4). -/
def insertRowsGrid (p n : Nat) (g : SheetGrid) : SheetGrid :=
  { g with
    cells := g.cells.map fun ac =>
      (if p ≤ ac.1.row then ⟨ac.1.column, ac.1.row + n⟩ else ac.1,
        insertShiftContentRows g.sheetName p n ac.2),
    merges := g.merges.map (insertShiftRangeRows p n),
    validations := g.validations.map fun v =>
      { v with range := insertShiftRangeRows p n v.range } }

/-- Modelled from the spec: insert `n` columns at 1-based position `p`
(§4.4). -/
def insertColsGrid (p n : Nat) (g : SheetGrid) : SheetGrid :=
  { g with
    cells := g.cells.map fun ac =>
      (if p ≤ ac.1.column then ⟨ac.1.column + n, ac.1.row⟩ else ac.1,
        insertShiftContentCols g.sheetName p n ac.2),
    merges := g.merges.map (insertShiftRangeCols p n),
    validations := g.validations.map fun v =>
      { v with range := insertShiftRangeCols p n v.range } }

/-! ## Structural mutation: delete -/

/-- Modelled from the spec: how a deletion of rows `[p, p+n)` clips a
range — one wholly inside the band is dropped, one straddling it is
clipped to its remaining extent and dropped if that extent is empty
(§4.4, §4.5: the same routine serves merges and validations). -/
def deleteClipRangeRows (p n : Nat) (rng : CellRange) : Option CellRange :=
  if p ≤ rng.start.row ∧ rng.stop.row < p + n then none
  else
    let s := if rng.start.row < p then rng.start.row
      else if p + n ≤ rng.start.row then rng.start.row - n else p
    let e := if rng.stop.row < p then rng.stop.row
      else if p + n ≤ rng.stop.row then rng.stop.row - n else p - 1
    if e < s then none
    else some ⟨⟨rng.start.column, s⟩, ⟨rng.stop.column, e⟩⟩

/-- Modelled from the spec: the column-axis version of
`deleteClipRangeRows`. -/
def deleteClipRangeCols (p n : Nat) (rng : CellRange) : Option CellRange :=
  if p ≤ rng.start.column ∧ rng.stop.column < p + n then none
  else
    let s := if rng.start.column < p then rng.start.column
      else if p + n ≤ rng.start.column then rng.start.column - n else p
    let e := if rng.stop.column < p then rng.stop.column
      else if p + n ≤ rng.stop.column then rng.stop.column - n else p - 1
    if e < s then none
    else some ⟨⟨s, rng.start.row⟩, ⟨e, rng.stop.row⟩⟩

/-- Structural row-delete rewrite of one cell's content: a formula whose
references survive is rewritten, one referencing the deleted band becomes
a `BrokenReference` marker carrying the original formula (§4.3, §7). -/
def deleteShiftContentRows (mutSheet : String) (p n : Nat) :
    CellContent → CellContent
  | .value v => .value v
  | .formula ts =>
    match mapRefsToksOpt (deleteShiftRefRows mutSheet p n) ts with
    | some ts' => .formula ts'
    | none => .broken ts
  | .broken o => .broken o

/-- Structural column-delete rewrite of one cell's content. -/
def deleteShiftContentCols (mutSheet : String) (p n : Nat) :
    CellContent → CellContent
  | .value v => .value v
  | .formula ts =>
    match mapRefsToksOpt (deleteShiftRefCols mutSheet p n) ts with
    | some ts' => .formula ts'
    | none => .broken ts
  | .broken o => .broken o

/-- Modelled from the spec: delete `n` rows starting at 1-based `p` —
cells inside `[p, p+n)` are removed, cells beyond are relocated by `-n`,
merges and validations are clipped by the shared routine, and every
formula goes through the deletion variant of the structural-shift policy
(§4.4). -/
def deleteRowsGrid (p n : Nat) (g : SheetGrid) : SheetGrid :=
  { g with
    cells := g.cells.filterMap fun ac =>
      if p ≤ ac.1.row ∧ ac.1.row < p + n then none
      else some
        (if p + n ≤ ac.1.row then ⟨ac.1.column, ac.1.row - n⟩ else ac.1,
          deleteShiftContentRows g.sheetName p n ac.2),
    merges := g.merges.filterMap (deleteClipRangeRows p n),
    validations := g.validations.filterMap fun v =>
      (deleteClipRangeRows p n v.range).map fun r => { v with range := r } }

/-- Modelled from the spec: delete `n` columns starting at 1-based `p`
(§4.4). -/
def deleteColsGrid (p n : Nat) (g : SheetGrid) : SheetGrid :=
  { g with
    cells := g.cells.filterMap fun ac =>
      if p ≤ ac.1.column ∧ ac.1.column < p + n then none
      else some
        (if p + n ≤ ac.1.column then ⟨ac.1.column - n, ac.1.row⟩ else ac.1,
          deleteShiftContentCols g.sheetName p n ac.2),
    merges := g.merges.filterMap (deleteClipRangeCols p n),
    validations := g.validations.filterMap fun v =>
      (deleteClipRangeCols p n v.range).map fun r => { v with range := r } }

/-! ## Merge registry -/

/-- Axis-aligned rectangle intersection test on normalized ranges (§4.2). -/
def rangesIntersect (a b : CellRange) : Bool :=
  a.start.column ≤ b.stop.column && b.start.column ≤ a.stop.column &&
    a.start.row ≤ b.stop.row && b.start.row ≤ a.stop.row

/-- A range spanning exactly one cell. -/
def isSingleCell (rng : CellRange) : Bool :=
  rng.start.column == rng.stop.column && rng.start.row == rng.stop.row

/-- Modelled from the spec: failure kinds of the merge registry (§4.5). -/
inductive MergeErr where
  | overlapError
  | degenerateRange
  | notFound
deriving DecidableEq, Repr

/-- Modelled from the spec: `register(range)` for merges — fails with
`OverlapError` if the range intersects any existing merged region on the
sheet, or with `DegenerateRange` if it spans a single cell (§4.5). -/
def registerMerge (ms : List CellRange) (rng : CellRange) :
    Except MergeErr (List CellRange) :=
  if ms.any (fun m => rangesIntersect m rng) then .error .overlapError
  else if isSingleCell rng then .error .degenerateRange
  else .ok (ms ++ [rng])

/-- Modelled from the spec: `unregister(range)` — fails with `NotFound`
if no merge exactly matches the range (§4.5). -/
def unregisterMerge (ms : List CellRange) (rng : CellRange) :
    Except MergeErr (List CellRange) :=
  if ms.contains rng then .ok (ms.filter (fun m => m ≠ rng)) else .error .notFound

/-! ## Copy-range engine -/

/-- Shift an address by an integer delta on each axis (clamping at 0 is
never exercised: callers establish both results are `≥ 1`). -/
def addrShift (a : CellAddress) (dc dr : Int) : CellAddress :=
  ⟨((a.column : Int) + dc).toNat, ((a.row : Int) + dr).toNat⟩

/-- Row-major iteration of a range: left-to-right within each row, rows
top-to-bottom (§4.2). -/
def rangeIter (rng : CellRange) : List CellAddress :=
  (List.range (rng.stop.row + 1 - rng.start.row)).flatMap fun i =>
    (List.range (rng.stop.column + 1 - rng.start.column)).map fun j =>
      ⟨rng.start.column + j, rng.start.row + i⟩

/-- Copy-translate rewrite of one cell's content under delta `(dc, dr)`:
values are copied unchanged, formulas go through the copy-translate
policy, a formula an offset reference of which would leave the sheet is
marked broken (§4.3, §4.6). -/
def translateContent (dc dr : Int) : CellContent → CellContent
  | .value v => .value v
  | .formula ts =>
    match mapRefsToksOpt (translateGatedRef dc dr) ts with
    | some ts' => .formula ts'
    | none => .broken ts
  | .broken o => .broken o

/-- Write a buffered list of cells into a cell association list, in
order. -/
def writeAll : List (CellAddress × CellContent) →
    List (CellAddress × CellContent) → List (CellAddress × CellContent)
  | cs, [] => cs
  | cs, kv :: rest => writeAll (setA cs kv.1 kv.2) rest

/-- Modelled from the spec: the copy-range engine — computes the delta
from the source range's top-left corner to the destination address,
fully buffers every populated source cell translated under that delta,
then writes the buffer to the shifted destination addresses (§4.6). -/
def copyRangeApply (g : SheetGrid) (src : CellRange) (dst : CellAddress) :
    SheetGrid :=
  { g with cells := writeAll g.cells ((rangeIter src).filterMap fun a =>
      (lookupCell g a).map fun c =>
        (addrShift a ((dst.column : Int) - (src.start.column : Int))
            ((dst.row : Int) - (src.start.row : Int)),
          translateContent ((dst.column : Int) - (src.start.column : Int))
            ((dst.row : Int) - (src.start.row : Int)) c)) }

/-- Modelled from the spec: the caller-facing copy-range operation —
fails with `OutOfBounds` (modelled as `none`) if any destination address
would leave the sheet limits, otherwise applies the buffered copy (§4.6). -/
def copyRangeOp (g : SheetGrid) (src : CellRange) (dst : CellAddress) :
    Option SheetGrid :=
  if 1 ≤ dst.column ∧ 1 ≤ dst.row ∧
      (src.stop.column : Int) +
        ((dst.column : Int) - (src.start.column : Int)) ≤ 16384 ∧
      (src.stop.row : Int) +
        ((dst.row : Int) - (src.start.row : Int)) ≤ 1048576 then
    some (copyRangeApply g src dst)
  else none

/-! ## Caller-facing structural operations (validation first) -/

/-- Modelled from the spec: validation failures of the structural
operations (§4.4, §7). -/
inductive StructErr where
  | invalidPosition
  | invalidCount
deriving DecidableEq, Repr

/-- Modelled from the spec: caller-facing insert-rows — fails with
`InvalidPosition` if `start < 1` and `InvalidCount` if `count < 1`,
reporting the failure with the grid untouched; otherwise mutates (§4.4). -/
def runInsertRows (g : SheetGrid) (start count : Int) :
    SheetGrid × Option StructErr :=
  if start < 1 then (g, some .invalidPosition)
  else if count < 1 then (g, some .invalidCount)
  else (insertRowsGrid start.toNat count.toNat g, none)

/-- Modelled from the spec: caller-facing insert-columns (§4.4). -/
def runInsertCols (g : SheetGrid) (start count : Int) :
    SheetGrid × Option StructErr :=
  if start < 1 then (g, some .invalidPosition)
  else if count < 1 then (g, some .invalidCount)
  else (insertColsGrid start.toNat count.toNat g, none)

/-- Modelled from the spec: caller-facing delete-rows (§4.4). -/
def runDeleteRows (g : SheetGrid) (start count : Int) :
    SheetGrid × Option StructErr :=
  if start < 1 then (g, some .invalidPosition)
  else if count < 1 then (g, some .invalidCount)
  else (deleteRowsGrid start.toNat count.toNat g, none)

/-- Modelled from the spec: caller-facing delete-columns (§4.4). -/
def runDeleteCols (g : SheetGrid) (start count : Int) :
    SheetGrid × Option StructErr :=
  if start < 1 then (g, some .invalidPosition)
  else if count < 1 then (g, some .invalidCount)
  else (deleteColsGrid start.toNat count.toNat g, none)

/-! ## Formula validation (no mutation) -/

/-- A workbook: named sheets with their grids. -/
def Workbook := List (String × SheetGrid)

/-- Find a sheet by name. -/
def findSheet : Workbook → String → Option SheetGrid
  | [], _ => none
  | (n, g) :: rest, name => if n = name then some g else findSheet rest name

/-- Syntactic check of a formula: it must start with `=` and every
reference it tokenizes to must lie within the sheet limits. -/
def formulaSyntaxOk (f : String) : Bool :=
  (match f.data with
    | '=' :: _ => true
    | _ => false) &&
  (tokenize f).all fun t =>
    match t with
    | .lit _ => true
    | .ref r => decide (1 ≤ r.col ∧ r.col ≤ 16384 ∧ 1 ≤ r.row ∧ r.row ≤ 1048576)

/-- Modelled from the spec: `validate-formula(sheet, cell, formula)` —
checks that the sheet exists, the cell address parses and the formula is
syntactically sound, and returns a message without mutating anything
(§6: "validate-formula ... [no mutation]"). -/
def validateFormulaSyntaxOp (wb : Workbook) (sheet cell formula : String) :
    Workbook × String :=
  match findSheet wb sheet with
  | none => (wb, "Error: Sheet not found")
  | some _ =>
    match parseAddr cell with
    | none => (wb, "Error: Invalid cell reference")
    | some _ =>
      if formulaSyntaxOk formula then (wb, "Formula is valid")
      else (wb, "Error: Invalid formula syntax")

/-! ## get_excel_path (embedded from `tools/tools.py`, lines 81-102) -/

/-- POSIX `os.path.isabs`: the path starts with a slash. -/
def isAbsPath (s : String) : Bool :=
  match s.data with
  | [] => false
  | c :: _ => c == '/'

/-- Whether a path's last character is a slash. -/
def lastIsSlash (s : String) : Bool :=
  match s.data.getLast? with
  | some c => c == '/'
  | none => false

/-- POSIX `os.path.join` for two components: an absolute second
component replaces the first; otherwise the components are joined with a
separating slash unless the first is empty or already ends in one. -/
def posixJoin (a b : String) : String :=
  if isAbsPath b then b
  else if a = "" || lastIsSlash a then a ++ b
  else a ++ "/" ++ b

/-- Embedded from `tools/tools.py` `get_excel_path`: return an absolute
filename unchanged; otherwise require the module-level files-path
configuration (here a parameter), raising `ValueError` (the `.error`
branch) when it is `None`, and joining against it when set. -/
def getExcelPath (filesPath : Option String) (filename : String) :
    Except String String :=
  if isAbsPath filename then .ok filename
  else
    match filesPath with
    | none => .error ("Invalid filename: " ++ filename ++
        ", must be an absolute path when not in SSE mode")
    | some base => .ok (posixJoin base filename)

/-! ## General list helpers -/

theorem filterMap_eq_self_of_some {α : Type} (f : α → Option α) :
    ∀ l : List α, (∀ x ∈ l, f x = some x) → l.filterMap f = l := by
  intro l h
  induction l with
  | nil => rfl
  | cons a rest ih =>
    rw [List.filterMap_cons, h a (by simp)]
    rw [ih (fun x hx => h x (by simp [hx]))]

/-! ## C8: validation before mutation for structural operations -/

/-- C8: every row/column insert or delete operation fails with
`InvalidPosition` when `start < 1` and (for an in-range start) with
`InvalidCount` when `count < 1`, and on such a failure the returned
sheet grid is exactly the loaded one, unmutated. -/
theorem structural_ops_validate_before_mutation (g : SheetGrid) (s c : Int) :
    (s < 1 →
      runInsertRows g s c = (g, some .invalidPosition) ∧
      runInsertCols g s c = (g, some .invalidPosition) ∧
      runDeleteRows g s c = (g, some .invalidPosition) ∧
      runDeleteCols g s c = (g, some .invalidPosition)) ∧
    (1 ≤ s → c < 1 →
      runInsertRows g s c = (g, some .invalidCount) ∧
      runInsertCols g s c = (g, some .invalidCount) ∧
      runDeleteRows g s c = (g, some .invalidCount) ∧
      runDeleteCols g s c = (g, some .invalidCount)) := by
  constructor
  · intro hs
    refine ⟨?_, ?_, ?_, ?_⟩ <;>
      simp [runInsertRows, runInsertCols, runDeleteRows, runDeleteCols, hs]
  · intro hs hc
    have hns : ¬ s < 1 := by omega
    refine ⟨?_, ?_, ?_, ?_⟩ <;>
      simp [runInsertRows, runInsertCols, runDeleteRows, runDeleteCols, hns, hc]

/-- Witness for C8: a start of 0 is rejected as `InvalidPosition` and a
count of 0 as `InvalidCount`, both leaving the grid untouched. -/
theorem structural_ops_validate_before_mutation_witness :
    runInsertRows ⟨"Sheet1", [], [], []⟩ 0 1
      = (⟨"Sheet1", [], [], []⟩, some .invalidPosition) ∧
    runDeleteCols ⟨"Sheet1", [], [], []⟩ 1 0
      = (⟨"Sheet1", [], [], []⟩, some .invalidCount) :=
  ⟨((structural_ops_validate_before_mutation ⟨"Sheet1", [], [], []⟩ 0 1).1
      (by decide)).1,
    ((structural_ops_validate_before_mutation ⟨"Sheet1", [], [], []⟩ 1 0).2
      (by decide) (by decide)).2.2.2⟩

/-! ## C9: validate-formula mutates nothing -/

/-- C9: `validate-formula` performs no mutation — for every workbook and
every input, the workbook returned alongside the result message (hence
every sheet's cells, formulas, merged regions and validation rules) is
the input workbook unchanged, whether validation succeeds or reports an
error. -/
theorem validate_formula_no_mutation (wb : Workbook)
    (sheet cell formula : String) :
    (validateFormulaSyntaxOp wb sheet cell formula).1 = wb := by
  unfold validateFormulaSyntaxOp
  cases findSheet wb sheet with
  | none => rfl
  | some g =>
    cases parseAddr cell with
    | none => rfl
    | some a =>
      by_cases h : formulaSyntaxOk formula = true
      · simp [h]
      · simp [h]

/-! ## C10: get_excel_path -/

theorem isAbsPath_append (a b : String) (h : isAbsPath a = true) :
    isAbsPath (a ++ b) = true := by
  obtain ⟨la⟩ := a
  obtain ⟨lb⟩ := b
  match la, h with
  | c :: rest, h =>
    show isAbsPath (String.mk ((c :: rest) ++ lb)) = true
    rw [List.cons_append]
    exact h

/-- C10 counterexample: with the module-level files-path configuration
set to the relative path `"data"`, a relative filename joins to a
relative result, so `get_excel_path` can return a relative path. -/
theorem get_excel_path_relative_result :
    getExcelPath (some "data") "book.xlsx" = .ok "data/book.xlsx" ∧
      isAbsPath "data/book.xlsx" = false :=
  ⟨rfl, rfl⟩

/-- C10 (amended): `get_excel_path` returns an absolute filename
unchanged, fails with `ValueError` for a relative filename when the
files-path configuration is `None` (the function touches no files at
all), and every path it returns is absolute PROVIDED the configured
files path, when consulted, is itself absolute — with a relative
configured files path the joined result can be relative. -/
theorem get_excel_path_spec (cfg : Option String) (f : String) :
    (isAbsPath f = true → getExcelPath cfg f = .ok f) ∧
    (isAbsPath f = false → getExcelPath none f
      = .error ("Invalid filename: " ++ f ++
        ", must be an absolute path when not in SSE mode")) ∧
    (∀ out, getExcelPath none f = .ok out → isAbsPath out = true) ∧
    (∀ base out, isAbsPath base = true →
      getExcelPath (some base) f = .ok out → isAbsPath out = true) := by
  refine ⟨?_, ?_, ?_, ?_⟩
  · intro h
    unfold getExcelPath
    rw [if_pos h]
  · intro h
    unfold getExcelPath
    rw [if_neg (by simp [h])]
  · intro out h
    unfold getExcelPath at h
    by_cases ha : isAbsPath f = true
    · rw [if_pos ha] at h
      cases h
      exact ha
    · rw [if_neg ha] at h
      exact absurd h (by simp)
  · intro base out hbase h
    unfold getExcelPath at h
    by_cases ha : isAbsPath f = true
    · rw [if_pos ha] at h
      cases h
      exact ha
    · rw [if_neg ha] at h
      simp only [Except.ok.injEq] at h
      subst h
      unfold posixJoin
      split
      · next habs => exact habs
      · split
        · exact isAbsPath_append base f hbase
        · rw [String.append_assoc]
          exact isAbsPath_append base ("/" ++ f) hbase

/-- Witness for C10's amended statement at concrete inputs. -/
theorem get_excel_path_spec_witness :
    getExcelPath (some "/data") "book.xlsx" = .ok "/data/book.xlsx" ∧
      isAbsPath "/data/book.xlsx" = true :=
  ⟨rfl, (get_excel_path_spec (some "/data") "book.xlsx").2.2.2 "/data"
    "/data/book.xlsx" rfl rfl⟩

/-! ## C6: merge registry overlap rules -/

/-- C6: registering a merge fails with `OverlapError` whenever the
requested range intersects an existing merged region, and with
`DegenerateRange` when it covers a single cell (and overlaps nothing);
concretely, registering `A1:B2` then `B2:C3` fails with `OverlapError`,
and after unregistering `A1:B2` the registration of `B2:C3` succeeds. -/
theorem merge_register_overlap_rules :
    (∀ (ms : List CellRange) (rng : CellRange),
      (∃ m ∈ ms, rangesIntersect m rng = true) →
        registerMerge ms rng = .error .overlapError) ∧
    (∀ (ms : List CellRange) (rng : CellRange),
      (∀ m ∈ ms, rangesIntersect m rng = false) → isSingleCell rng = true →
        registerMerge ms rng = .error .degenerateRange) ∧
    registerMerge [] ⟨⟨1, 1⟩, ⟨2, 2⟩⟩ = .ok [⟨⟨1, 1⟩, ⟨2, 2⟩⟩] ∧
    registerMerge [⟨⟨1, 1⟩, ⟨2, 2⟩⟩] ⟨⟨2, 2⟩, ⟨3, 3⟩⟩ = .error .overlapError ∧
    unregisterMerge [⟨⟨1, 1⟩, ⟨2, 2⟩⟩] ⟨⟨1, 1⟩, ⟨2, 2⟩⟩ = .ok [] ∧
    registerMerge [] ⟨⟨2, 2⟩, ⟨3, 3⟩⟩ = .ok [⟨⟨2, 2⟩, ⟨3, 3⟩⟩] := by
  refine ⟨?_, ?_, rfl, rfl, rfl, rfl⟩
  · intro ms rng h
    unfold registerMerge
    rw [if_pos (List.any_eq_true.2 (by
      obtain ⟨m, hm, hi⟩ := h
      exact ⟨m, hm, hi⟩))]
  · intro ms rng h hd
    unfold registerMerge
    rw [if_neg (by
      intro hc
      obtain ⟨m, hm, hi⟩ := List.any_eq_true.1 hc
      rw [h m hm] at hi
      exact absurd hi (by simp)), if_pos hd]

/-- Witness for C6's general clauses at concrete inputs. -/
theorem merge_register_overlap_rules_witness :
    registerMerge [⟨⟨1, 1⟩, ⟨1, 2⟩⟩] ⟨⟨1, 2⟩, ⟨1, 3⟩⟩ = .error .overlapError ∧
      registerMerge [⟨⟨1, 1⟩, ⟨1, 2⟩⟩] ⟨⟨5, 5⟩, ⟨5, 5⟩⟩
        = .error .degenerateRange :=
  ⟨merge_register_overlap_rules.1 [⟨⟨1, 1⟩, ⟨1, 2⟩⟩] ⟨⟨1, 2⟩, ⟨1, 3⟩⟩
      ⟨⟨⟨1, 1⟩, ⟨1, 2⟩⟩, by simp, by decide⟩,
    merge_register_overlap_rules.2.1 [⟨⟨1, 1⟩, ⟨1, 2⟩⟩] ⟨⟨5, 5⟩, ⟨5, 5⟩⟩
      (by intro m hm; simp at hm; subst hm; decide) (by decide)⟩

/-! ## Index lemmas for the token rewriters -/

theorem mapRefsToksOpt_none_of_ref {f : FormulaReference → Option FormulaReference} :
    ∀ (ts : List FormulaToken) (i : Nat) (r : FormulaReference),
      ts[i]? = some (.ref r) → f r = none → mapRefsToksOpt f ts = none := by
  intro ts
  induction ts with
  | nil => intro i r h _; simp at h
  | cons t rest ih =>
    intro i r h hf
    match i with
    | 0 =>
      simp only [List.getElem?_cons_zero, Option.some.injEq] at h
      subst h
      simp [mapRefsToksOpt, hf]
    | i + 1 =>
      simp only [List.getElem?_cons_succ] at h
      have hrest := ih i r h hf
      cases t with
      | lit c => simp [mapRefsToksOpt, hrest]
      | ref r' =>
        cases hr' : f r' with
        | none => simp [mapRefsToksOpt, hr']
        | some x => simp [mapRefsToksOpt, hr', hrest]

theorem mapRefsToksOpt_some_get {f : FormulaReference → Option FormulaReference} :
    ∀ (ts ts' : List FormulaToken), mapRefsToksOpt f ts = some ts' →
      ∀ (i : Nat) (r : FormulaReference), ts[i]? = some (.ref r) →
        ∃ r', f r = some r' ∧ ts'[i]? = some (.ref r') := by
  intro ts
  induction ts with
  | nil => intro ts' h i r hget; simp at hget
  | cons t rest ih =>
    intro ts' h i r hget
    cases t with
    | lit c =>
      unfold mapRefsToksOpt at h
      rw [Option.map_eq_some'] at h
      obtain ⟨ts'', hrest, rfl⟩ := h
      match i with
      | 0 => simp at hget
      | i + 1 =>
        simp only [List.getElem?_cons_succ] at hget
        obtain ⟨r', h1, h2⟩ := ih ts'' hrest i r hget
        exact ⟨r', h1, by simpa using h2⟩
    | ref r0 =>
      unfold mapRefsToksOpt at h
      cases hr0 : f r0 with
      | none => rw [hr0] at h; simp at h
      | some r0' =>
        rw [hr0] at h
        rw [Option.map_eq_some'] at h
        obtain ⟨ts'', hrest, rfl⟩ := h
        match i with
        | 0 =>
          simp only [List.getElem?_cons_zero, Option.some.injEq,
            FormulaToken.ref.injEq] at hget
          subst hget
          exact ⟨r0', hr0, by simp⟩
        | i + 1 =>
          simp only [List.getElem?_cons_succ] at hget
          obtain ⟨r', h1, h2⟩ := ih ts'' hrest i r hget
          exact ⟨r', h1, by simpa using h2⟩

/-! ## C1: structural insertion shifts every reference at or past the point -/

/-- C1: inserting `n` columns (or rows) at position `p` increases the
column (or row) coordinate of every same-sheet reference at or beyond
`p` by `n`, regardless of the absolute flag on that axis; in particular
the formula `"=A1+$B$1"` held in cell `C1` becomes `"=B1+$C$1"` (and the
host cell moves to `D1`) after inserting 1 column at position 1, and
`"=A2+$B$2"` held in `A3` becomes `"=A3+$B$3"` after inserting 1 row at
position 1. -/
theorem structural_insert_shifts_all_refs :
    (∀ (mutSheet : String) (p n : Nat) (ts : List FormulaToken) (i : Nat)
      (r : FormulaReference), ts[i]? = some (.ref r) →
      refOnSheet mutSheet r = true → p ≤ r.col →
      (mapRefsToks (insertShiftRefCols mutSheet p n) ts)[i]?
        = some (.ref { r with col := r.col + n })) ∧
    (∀ (mutSheet : String) (p n : Nat) (ts : List FormulaToken) (i : Nat)
      (r : FormulaReference), ts[i]? = some (.ref r) →
      refOnSheet mutSheet r = true → p ≤ r.row →
      (mapRefsToks (insertShiftRefRows mutSheet p n) ts)[i]?
        = some (.ref { r with row := r.row + n })) ∧
    lookupCell (insertColsGrid 1 1
      ⟨"Sheet1", [(⟨3, 1⟩, .formula (tokenize "=A1+$B$1"))], [], []⟩) ⟨4, 1⟩
      = some (.formula (tokenize "=B1+$C$1")) ∧
    printFormula (tokenize "=B1+$C$1") = "=B1+$C$1" ∧
    lookupCell (insertRowsGrid 1 1
      ⟨"Sheet1", [(⟨1, 3⟩, .formula (tokenize "=A2+$B$2"))], [], []⟩) ⟨1, 4⟩
      = some (.formula (tokenize "=A3+$B$3")) ∧
    printFormula (tokenize "=A3+$B$3") = "=A3+$B$3" := by
  refine ⟨?_, ?_, by decide, rfl, by decide, rfl⟩
  · intro mutSheet p n ts i r hget hsheet hle
    unfold mapRefsToks
    rw [List.getElem?_map, hget]
    simp [insertShiftRefCols, hsheet, hle]
  · intro mutSheet p n ts i r hget hsheet hle
    unfold mapRefsToks
    rw [List.getElem?_map, hget]
    simp [insertShiftRefRows, hsheet, hle]

/-- Witness for C1's general clauses: the relative reference `A1`
shifted by a column insert at 1, and the relative reference `A2` shifted
by a row insert at 1. -/
theorem structural_insert_shifts_all_refs_witness :
    (mapRefsToks (insertShiftRefCols "Sheet1" 1 1)
      [.ref ⟨none, false, 1, false, 1⟩])[0]?
      = some (.ref ⟨none, false, 2, false, 1⟩) ∧
    (mapRefsToks (insertShiftRefRows "Sheet1" 1 1)
      [.ref ⟨none, false, 1, false, 2⟩])[0]?
      = some (.ref ⟨none, false, 1, false, 3⟩) :=
  ⟨structural_insert_shifts_all_refs.1 "Sheet1" 1 1
      [.ref ⟨none, false, 1, false, 1⟩] 0 ⟨none, false, 1, false, 1⟩
      rfl rfl (by decide),
    structural_insert_shifts_all_refs.2.1 "Sheet1" 1 1
      [.ref ⟨none, false, 1, false, 2⟩] 0 ⟨none, false, 1, false, 2⟩
      rfl rfl (by decide)⟩

/-! ## C2: structural deletion breaks, shifts or preserves references -/

/-- C2: deleting `n` rows (or columns) starting at `p`: a same-sheet
reference with its coordinate on that axis strictly inside `[p, p+n)`
makes the formula a `BrokenReference` marker, a reference with that
coordinate `≥ p+n` has it decreased by `n`, and a reference with it
`< p` is unchanged; concretely, after deleting rows `[2,4)` a formula
`"=B3"` is marked broken (carrying its original text) and a formula
`"=B5"` becomes `"=B3"`, and after deleting columns `[2,4)` a formula
`"=C1"` is marked broken and a formula `"=E1"` becomes `"=C1"`. -/
theorem structural_delete_rewrites_refs :
    (∀ (mutSheet : String) (p n : Nat) (ts : List FormulaToken) (i : Nat)
      (r : FormulaReference), ts[i]? = some (.ref r) →
      refOnSheet mutSheet r = true → p ≤ r.row → r.row < p + n →
      mapRefsToksOpt (deleteShiftRefRows mutSheet p n) ts = none) ∧
    (∀ (mutSheet : String) (p n : Nat) (ts ts' : List FormulaToken) (i : Nat)
      (r : FormulaReference),
      mapRefsToksOpt (deleteShiftRefRows mutSheet p n) ts = some ts' →
      ts[i]? = some (.ref r) → r.row < p → ts'[i]? = some (.ref r)) ∧
    (∀ (mutSheet : String) (p n : Nat) (ts ts' : List FormulaToken) (i : Nat)
      (r : FormulaReference),
      mapRefsToksOpt (deleteShiftRefRows mutSheet p n) ts = some ts' →
      ts[i]? = some (.ref r) → refOnSheet mutSheet r = true → p + n ≤ r.row →
      ts'[i]? = some (.ref { r with row := r.row - n })) ∧
    (∀ (mutSheet : String) (p n : Nat) (ts : List FormulaToken) (i : Nat)
      (r : FormulaReference), ts[i]? = some (.ref r) →
      refOnSheet mutSheet r = true → p ≤ r.col → r.col < p + n →
      mapRefsToksOpt (deleteShiftRefCols mutSheet p n) ts = none) ∧
    (∀ (mutSheet : String) (p n : Nat) (ts ts' : List FormulaToken) (i : Nat)
      (r : FormulaReference),
      mapRefsToksOpt (deleteShiftRefCols mutSheet p n) ts = some ts' →
      ts[i]? = some (.ref r) → r.col < p → ts'[i]? = some (.ref r)) ∧
    (∀ (mutSheet : String) (p n : Nat) (ts ts' : List FormulaToken) (i : Nat)
      (r : FormulaReference),
      mapRefsToksOpt (deleteShiftRefCols mutSheet p n) ts = some ts' →
      ts[i]? = some (.ref r) → refOnSheet mutSheet r = true → p + n ≤ r.col →
      ts'[i]? = some (.ref { r with col := r.col - n })) ∧
    lookupCell (deleteRowsGrid 2 2
      ⟨"Sheet1", [(⟨1, 1⟩, .formula (tokenize "=B3")),
        (⟨3, 1⟩, .formula (tokenize "=B5"))], [], []⟩) ⟨1, 1⟩
      = some (.broken (tokenize "=B3")) ∧
    lookupCell (deleteRowsGrid 2 2
      ⟨"Sheet1", [(⟨1, 1⟩, .formula (tokenize "=B3")),
        (⟨3, 1⟩, .formula (tokenize "=B5"))], [], []⟩) ⟨3, 1⟩
      = some (.formula (tokenize "=B3")) ∧
    lookupCell (deleteColsGrid 2 2
      ⟨"Sheet1", [(⟨1, 1⟩, .formula (tokenize "=C1")),
        (⟨5, 1⟩, .formula (tokenize "=E1"))], [], []⟩) ⟨1, 1⟩
      = some (.broken (tokenize "=C1")) ∧
    lookupCell (deleteColsGrid 2 2
      ⟨"Sheet1", [(⟨1, 1⟩, .formula (tokenize "=C1")),
        (⟨5, 1⟩, .formula (tokenize "=E1"))], [], []⟩) ⟨3, 1⟩
      = some (.formula (tokenize "=C1")) := by
  refine ⟨?_, ?_, ?_, ?_, ?_, ?_, by decide, by decide, by decide, by decide⟩
  · intro mutSheet p n ts i r hget hsheet hlo hhi
    apply mapRefsToksOpt_none_of_ref ts i r hget
    unfold deleteShiftRefRows
    rw [if_pos hsheet, if_neg (by omega), if_pos hhi]
  · intro mutSheet p n ts ts' i r hsome hget hlt
    obtain ⟨r', hf, hget'⟩ := mapRefsToksOpt_some_get ts ts' hsome i r hget
    unfold deleteShiftRefRows at hf
    by_cases hs : refOnSheet mutSheet r = true
    · rw [if_pos hs, if_pos hlt] at hf
      cases hf
      exact hget'
    · rw [if_neg hs] at hf
      cases hf
      exact hget'
  · intro mutSheet p n ts ts' i r hsome hget hsheet hge
    obtain ⟨r', hf, hget'⟩ := mapRefsToksOpt_some_get ts ts' hsome i r hget
    unfold deleteShiftRefRows at hf
    rw [if_pos hsheet, if_neg (by omega), if_neg (by omega)] at hf
    cases hf
    exact hget'
  · intro mutSheet p n ts i r hget hsheet hlo hhi
    apply mapRefsToksOpt_none_of_ref ts i r hget
    unfold deleteShiftRefCols
    rw [if_pos hsheet, if_neg (by omega), if_pos hhi]
  · intro mutSheet p n ts ts' i r hsome hget hlt
    obtain ⟨r', hf, hget'⟩ := mapRefsToksOpt_some_get ts ts' hsome i r hget
    unfold deleteShiftRefCols at hf
    by_cases hs : refOnSheet mutSheet r = true
    · rw [if_pos hs, if_pos hlt] at hf
      cases hf
      exact hget'
    · rw [if_neg hs] at hf
      cases hf
      exact hget'
  · intro mutSheet p n ts ts' i r hsome hget hsheet hge
    obtain ⟨r', hf, hget'⟩ := mapRefsToksOpt_some_get ts ts' hsome i r hget
    unfold deleteShiftRefCols at hf
    rw [if_pos hsheet, if_neg (by omega), if_neg (by omega)] at hf
    cases hf
    exact hget'

/-- Witness for C2's general clauses: deleting rows `[2,4)` against the
single references `B3` (broken), `B1` (kept) and `B5` (shifted), and
deleting columns `[2,4)` against `C1` (broken), `A1` (kept) and `E1`
(shifted). -/
theorem structural_delete_rewrites_refs_witness :
    mapRefsToksOpt (deleteShiftRefRows "Sheet1" 2 2)
      [.ref ⟨none, false, 2, false, 3⟩] = none ∧
    ([FormulaToken.ref ⟨none, false, 2, false, 1⟩] : List FormulaToken)[0]?
      = some (.ref ⟨none, false, 2, false, 1⟩) ∧
    ([FormulaToken.ref ⟨none, false, 2, false, 3⟩] : List FormulaToken)[0]?
      = some (.ref ⟨none, false, 2, false, 3⟩) ∧
    mapRefsToksOpt (deleteShiftRefCols "Sheet1" 2 2)
      [.ref ⟨none, false, 3, false, 1⟩] = none ∧
    ([FormulaToken.ref ⟨none, false, 1, false, 1⟩] : List FormulaToken)[0]?
      = some (.ref ⟨none, false, 1, false, 1⟩) ∧
    ([FormulaToken.ref ⟨none, false, 3, false, 1⟩] : List FormulaToken)[0]?
      = some (.ref ⟨none, false, 3, false, 1⟩) :=
  ⟨structural_delete_rewrites_refs.1 "Sheet1" 2 2
      [.ref ⟨none, false, 2, false, 3⟩] 0 ⟨none, false, 2, false, 3⟩
      rfl rfl (by decide) (by decide),
    structural_delete_rewrites_refs.2.1 "Sheet1" 2 2
      [.ref ⟨none, false, 2, false, 1⟩] [.ref ⟨none, false, 2, false, 1⟩]
      0 ⟨none, false, 2, false, 1⟩ (by decide) rfl (by decide),
    structural_delete_rewrites_refs.2.2.1 "Sheet1" 2 2
      [.ref ⟨none, false, 2, false, 5⟩] [.ref ⟨none, false, 2, false, 3⟩]
      0 ⟨none, false, 2, false, 5⟩ (by decide) rfl rfl (by decide),
    structural_delete_rewrites_refs.2.2.2.1 "Sheet1" 2 2
      [.ref ⟨none, false, 3, false, 1⟩] 0 ⟨none, false, 3, false, 1⟩
      rfl rfl (by decide) (by decide),
    structural_delete_rewrites_refs.2.2.2.2.1 "Sheet1" 2 2
      [.ref ⟨none, false, 1, false, 1⟩] [.ref ⟨none, false, 1, false, 1⟩]
      0 ⟨none, false, 1, false, 1⟩ (by decide) rfl (by decide),
    structural_delete_rewrites_refs.2.2.2.2.2.1 "Sheet1" 2 2
      [.ref ⟨none, false, 5, false, 1⟩] [.ref ⟨none, false, 3, false, 1⟩]
      0 ⟨none, false, 5, false, 1⟩ (by decide) rfl rfl (by decide)⟩

/-! ## C3: copy-translate moves relative axes only -/

/-- Printed formula found at an address of an optional grid; used to
state copy examples without existential binders. -/
def printedFormulaAt (og : Option SheetGrid) (a : CellAddress) : Option String :=
  match og with
  | some g =>
    match lookupCell g a with
    | some (.formula ts) => some (printFormula ts)
    | _ => none
  | none => none

/-- C3: the copy-translate policy offsets every reference axis with
`absolute = false` by the copy delta and leaves every axis with
`absolute = true` unchanged (sheet qualifier untouched); in particular
the formula `"=A1"` in `B1` copied to `D1` yields `"=C1"`. -/
theorem copy_translate_moves_relative_axes :
    (∀ (dc dr : Int) (r r' : FormulaReference),
      translateRef dc dr r = some r' →
      r'.colAbs = r.colAbs ∧ r'.rowAbs = r.rowAbs ∧ r'.sheet = r.sheet ∧
      (r.colAbs = true → r'.col = r.col) ∧
      (r.colAbs = false → (r'.col : Int) = (r.col : Int) + dc) ∧
      (r.rowAbs = true → r'.row = r.row) ∧
      (r.rowAbs = false → (r'.row : Int) = (r.row : Int) + dr)) ∧
    printedFormulaAt (copyRangeOp
      ⟨"Sheet1", [(⟨2, 1⟩, .formula (tokenize "=A1"))], [], []⟩
      ⟨⟨2, 1⟩, ⟨2, 1⟩⟩ ⟨4, 1⟩) ⟨4, 1⟩ = some "=C1" := by
  refine ⟨?_, by decide⟩
  intro dc dr r r' h
  unfold translateRef at h
  repeat' split at h
  all_goals try exact Option.noConfusion h
  all_goals injection h with h'
  all_goals subst h'
  all_goals refine ⟨rfl, rfl, rfl, ?_, ?_, ?_, ?_⟩
  all_goals intro hx
  all_goals try simp_all
  all_goals omega

/-- Witness for C3's general clause: translating `A1` by delta `(2, 0)`
gives a reference whose column is `1 + 2`. -/
theorem copy_translate_moves_relative_axes_witness :
    (((⟨none, false, 3, false, 1⟩ : FormulaReference).col : Int))
      = ((1 : Nat) : Int) + 2 :=
  (copy_translate_moves_relative_axes.1 2 0 ⟨none, false, 1, false, 1⟩
    ⟨none, false, 3, false, 1⟩ (by decide)).2.2.2.2.1 rfl

/-! ## C5: insert-then-delete round trip -/

theorem delete_insert_ref_rows (m : String) (p n : Nat) (r : FormulaReference) :
    deleteShiftRefRows m p n (insertShiftRefRows m p n r) = some r := by
  unfold insertShiftRefRows
  split
  · next hc =>
    obtain ⟨hs, hp⟩ := hc
    unfold deleteShiftRefRows
    rw [if_pos (show refOnSheet m { r with row := r.row + n } = true from hs)]
    rw [if_neg (show ¬({ r with row := r.row + n } : FormulaReference).row < p from by
      dsimp only; omega)]
    rw [if_neg (show ¬({ r with row := r.row + n } : FormulaReference).row < p + n from by
      dsimp only; omega)]
    show some { r with row := r.row + n - n } = some r
    have he : r.row + n - n = r.row := by omega
    rw [he]
  · next hc =>
    unfold deleteShiftRefRows
    by_cases hs : refOnSheet m r = true
    · have hp : ¬ p ≤ r.row := fun hp => hc ⟨hs, hp⟩
      rw [if_pos hs, if_pos (by omega)]
    · rw [if_neg hs]

theorem delete_insert_toks_rows (m : String) (p n : Nat) :
    ∀ ts : List FormulaToken,
      mapRefsToksOpt (deleteShiftRefRows m p n)
        (mapRefsToks (insertShiftRefRows m p n) ts) = some ts := by
  intro ts
  induction ts with
  | nil => rfl
  | cons t rest ih =>
    cases t with
    | lit c =>
      show (mapRefsToksOpt (deleteShiftRefRows m p n)
        (mapRefsToks (insertShiftRefRows m p n) rest)).map (.lit c :: ·)
        = some (.lit c :: rest)
      rw [ih]
      rfl
    | ref r =>
      show (match deleteShiftRefRows m p n (insertShiftRefRows m p n r) with
        | none => none
        | some r' => (mapRefsToksOpt (deleteShiftRefRows m p n)
            (mapRefsToks (insertShiftRefRows m p n) rest)).map (.ref r' :: ·))
        = some (.ref r :: rest)
      rw [delete_insert_ref_rows, ih]
      rfl

theorem delete_insert_content_rows (m : String) (p n : Nat) (c : CellContent) :
    deleteShiftContentRows m p n (insertShiftContentRows m p n c) = c := by
  cases c with
  | value v => rfl
  | broken o => rfl
  | formula ts =>
    show (match mapRefsToksOpt (deleteShiftRefRows m p n)
        (mapRefsToks (insertShiftRefRows m p n) ts) with
      | some ts' => CellContent.formula ts'
      | none => CellContent.broken (mapRefsToks (insertShiftRefRows m p n) ts))
      = CellContent.formula ts
    rw [delete_insert_toks_rows]

theorem delete_insert_range_rows (p n : Nat) (rng : CellRange)
    (h : rng.start.row ≤ rng.stop.row) :
    deleteClipRangeRows p n (insertShiftRangeRows p n rng) = some rng := by
  obtain ⟨⟨sc, sr⟩, ⟨ec, er⟩⟩ := rng
  simp only at h
  unfold insertShiftRangeRows
  simp only [deleteClipRangeRows]
  split_ifs <;> dsimp only at * <;>
    first
    | omega
    | rfl
    | (simp only [Option.some.injEq, CellRange.mk.injEq, CellAddress.mk.injEq,
        true_and, and_true]
       omega)

/-- The data-model invariant that every merge and validation range on a
grid is normalized (§3). -/
def gridNormalized (g : SheetGrid) : Prop :=
  (∀ m ∈ g.merges, rangeNormalized m) ∧
    ∀ v ∈ g.validations, rangeNormalized v.range

instance (g : SheetGrid) : Decidable (gridNormalized g) := by
  unfold gridNormalized; infer_instance

/-- C5: inserting `n` rows at position `p` and then deleting `n` rows at
`p` restores the cells, formulas, merged-region ranges and
validation-rule ranges of any grid with normalized ranges exactly (no
cell moved by the insertion can land inside the inserted band, so the
claim's proviso is always met). -/
theorem insert_delete_rows_round_trip (g : SheetGrid) (p n : Nat)
    (h : gridNormalized g) :
    deleteRowsGrid p n (insertRowsGrid p n g) = g := by
  obtain ⟨hm, hv⟩ := h
  obtain ⟨name, cells, merges, valids⟩ := g
  simp only at hm hv
  unfold insertRowsGrid deleteRowsGrid
  simp only [SheetGrid.mk.injEq]
  refine ⟨trivial, ?_, ?_, ?_⟩
  · rw [List.filterMap_map]
    apply filterMap_eq_self_of_some
    intro x hx
    obtain ⟨⟨ac, ar⟩, c⟩ := x
    simp only [Function.comp]
    by_cases hp : p ≤ ar
    · rw [if_pos hp]
      rw [if_neg (by dsimp only; omega)]
      rw [if_pos (by dsimp only; omega)]
      rw [delete_insert_content_rows]
      show some ((⟨ac, ar + n - n⟩ : CellAddress), c) = some (⟨ac, ar⟩, c)
      have har : ar + n - n = ar := by omega
      rw [har]
    · rw [if_neg hp]
      rw [if_neg (by dsimp only; omega)]
      rw [if_neg (by dsimp only; omega)]
      rw [delete_insert_content_rows]
  · rw [List.filterMap_map]
    apply filterMap_eq_self_of_some
    intro rng hmem
    exact delete_insert_range_rows p n rng (hm rng hmem).2
  · rw [List.filterMap_map]
    apply filterMap_eq_self_of_some
    intro v hmem
    obtain ⟨rng, k, cr⟩ := v
    simp only [Function.comp]
    rw [delete_insert_range_rows p n rng (hv ⟨rng, k, cr⟩ hmem).2]
    rfl

/-- Witness for C5: a concrete grid with a formula, a merge and a
validation rule round-trips through insert-then-delete of one row at
row 2. -/
theorem insert_delete_rows_round_trip_witness :
    deleteRowsGrid 2 1 (insertRowsGrid 2 1
      ⟨"Sheet1", [(⟨1, 3⟩, .formula (tokenize "=B2"))],
        [⟨⟨1, 1⟩, ⟨2, 2⟩⟩], [⟨⟨⟨1, 1⟩, ⟨1, 5⟩⟩, "list", "1,2,3"⟩]⟩)
      = ⟨"Sheet1", [(⟨1, 3⟩, .formula (tokenize "=B2"))],
        [⟨⟨1, 1⟩, ⟨2, 2⟩⟩], [⟨⟨⟨1, 1⟩, ⟨1, 5⟩⟩, "list", "1,2,3"⟩]⟩ :=
  insert_delete_rows_round_trip
    ⟨"Sheet1", [(⟨1, 3⟩, .formula (tokenize "=B2"))],
      [⟨⟨1, 1⟩, ⟨2, 2⟩⟩], [⟨⟨⟨1, 1⟩, ⟨1, 5⟩⟩, "list", "1,2,3"⟩]⟩ 2 1 (by decide)

/-! ## C7: copy-range fully buffers the source -/

theorem mem_rangeIter (rng : CellRange) (a : CellAddress) :
    a ∈ rangeIter rng ↔
      rng.start.column ≤ a.column ∧ a.column ≤ rng.stop.column ∧
        rng.start.row ≤ a.row ∧ a.row ≤ rng.stop.row := by
  obtain ⟨⟨sc, sr⟩, ⟨ec, er⟩⟩ := rng
  obtain ⟨ac, ar⟩ := a
  unfold rangeIter
  simp only [List.mem_flatMap, List.mem_map, List.mem_range,
    CellAddress.mk.injEq]
  constructor
  · rintro ⟨i, hi, j, hj, hc, hr⟩
    omega
  · rintro ⟨h1, h2, h3, h4⟩
    exact ⟨ar - sr, by omega, ac - sc, by omega, by omega, by omega⟩

theorem rangeIter_nodup (rng : CellRange) : (rangeIter rng).Nodup := by
  obtain ⟨⟨sc, sr⟩, ⟨ec, er⟩⟩ := rng
  unfold rangeIter
  rw [List.nodup_flatMap]
  refine ⟨?_, ?_⟩
  · intro i _
    refine List.Nodup.map ?_ (List.nodup_range _)
    intro j₁ j₂ hj
    have h1 : sc + j₁ = sc + j₂ := congrArg CellAddress.column hj
    omega
  · refine List.Pairwise.imp_of_mem ?_ (List.nodup_range _)
    intro i₁ i₂ _ _ hne
    intro a ha₁ ha₂
    obtain ⟨j₁, _, rfl⟩ := List.mem_map.1 ha₁
    obtain ⟨j₂, _, heq⟩ := List.mem_map.1 ha₂
    have h2 : sr + i₂ = sr + i₁ := congrArg CellAddress.row heq
    omega

theorem lookupA_setA_self (cs : List (CellAddress × CellContent))
    (k : CellAddress) (v : CellContent) : lookupA (setA cs k v) k = some v := by
  induction cs with
  | nil => simp [setA, lookupA]
  | cons kv rest ih =>
    obtain ⟨k0, v0⟩ := kv
    unfold setA
    by_cases hk : k0 = k
    · rw [if_pos hk]
      simp [lookupA]
    · rw [if_neg hk]
      unfold lookupA
      rw [if_neg hk]
      exact ih

theorem lookupA_setA_other (cs : List (CellAddress × CellContent))
    (k k' : CellAddress) (v : CellContent) (h : k ≠ k') :
    lookupA (setA cs k v) k' = lookupA cs k' := by
  induction cs with
  | nil => simp [setA, lookupA, if_neg h]
  | cons kv rest ih =>
    obtain ⟨k0, v0⟩ := kv
    unfold setA
    by_cases hk : k0 = k
    · rw [if_pos hk]
      unfold lookupA
      rw [if_neg h, if_neg (hk ▸ h)]
    · rw [if_neg hk]
      unfold lookupA
      by_cases hk' : k0 = k'
      · rw [if_pos hk', if_pos hk']
      · rw [if_neg hk', if_neg hk']
        exact ih

theorem lookupA_writeAll_not_mem (buf : List (CellAddress × CellContent)) :
    ∀ (cs : List (CellAddress × CellContent)) (k : CellAddress),
      (∀ kv ∈ buf, kv.1 ≠ k) →
      lookupA (writeAll cs buf) k = lookupA cs k := by
  induction buf with
  | nil => intro cs k _; rfl
  | cons kv rest ih =>
    intro cs k hne
    unfold writeAll
    rw [ih (setA cs kv.1 kv.2) k (fun x hx => hne x (by simp [hx]))]
    exact lookupA_setA_other cs kv.1 k kv.2 (hne kv (by simp))

theorem lookupA_writeAll_mem (buf : List (CellAddress × CellContent)) :
    ∀ (cs : List (CellAddress × CellContent)) (k : CellAddress) (v : CellContent),
      buf.Pairwise (fun x y => x.1 ≠ y.1) → (k, v) ∈ buf →
      lookupA (writeAll cs buf) k = some v := by
  induction buf with
  | nil => intro cs k v _ hm; simp at hm
  | cons kv rest ih =>
    intro cs k v hpair hm
    obtain ⟨hhead, htail⟩ := List.pairwise_cons.1 hpair
    rcases List.mem_cons.1 hm with rfl | hm'
    · unfold writeAll
      rw [lookupA_writeAll_not_mem rest (setA cs k v) k
        (fun x hx => (hhead x hx).symm)]
      exact lookupA_setA_self cs k v
    · exact ih (setA cs kv.1 kv.2) k v htail hm'

/-- C7: copy-range is buffer-then-write — when the caller-facing
copy succeeds, the new content at each shifted destination address is
the copy-translate (under the source-to-destination delta) of the
ORIGINAL grid's content at the corresponding source address, even when
source and destination ranges overlap; in particular copying `A1:A3` to
`A2` leaves row 2 holding old row 1's value (and row 3 old row 2's),
not old row 2's value. -/
theorem copy_range_buffers_source :
    (∀ (g : SheetGrid) (src : CellRange) (dst : CellAddress) (g' : SheetGrid),
      copyRangeOp g src dst = some g' →
      ∀ (s : CellAddress) (c : CellContent), s ∈ rangeIter src →
        lookupCell g s = some c →
        lookupCell g' (addrShift s ((dst.column : Int) - src.start.column)
            ((dst.row : Int) - src.start.row))
          = some (translateContent ((dst.column : Int) - src.start.column)
            ((dst.row : Int) - src.start.row) c)) ∧
    (copyRangeOp
      ⟨"S", [(⟨1, 1⟩, .value "r1"), (⟨1, 2⟩, .value "r2"),
        (⟨1, 3⟩, .value "r3")], [], []⟩
      ⟨⟨1, 1⟩, ⟨1, 3⟩⟩ ⟨1, 2⟩).map (fun g' => lookupCell g' ⟨1, 2⟩)
      = some (some (.value "r1")) ∧
    (copyRangeOp
      ⟨"S", [(⟨1, 1⟩, .value "r1"), (⟨1, 2⟩, .value "r2"),
        (⟨1, 3⟩, .value "r3")], [], []⟩
      ⟨⟨1, 1⟩, ⟨1, 3⟩⟩ ⟨1, 2⟩).map (fun g' => lookupCell g' ⟨1, 3⟩)
      = some (some (.value "r2")) := by
  refine ⟨?_, by decide, by decide⟩
  intro g src dst g' hop s c hmem hlook
  unfold copyRangeOp at hop
  split at hop
  case isFalse => exact Option.noConfusion hop
  case isTrue hbounds =>
    injection hop with hop'
    subst hop'
    obtain ⟨hd1, hd2, _, _⟩ := hbounds
    set dc : Int := (dst.column : Int) - src.start.column with hdc
    set dr : Int := (dst.row : Int) - src.start.row with hdr
    have hshift_inj : ∀ a ∈ rangeIter src, ∀ b ∈ rangeIter src,
        a ≠ b → addrShift a dc dr ≠ addrShift b dc dr := by
      intro a hma b hmb hne heq
      obtain ⟨ha1, _, ha3, _⟩ := (mem_rangeIter src a).1 hma
      obtain ⟨hb1, _, hb3, _⟩ := (mem_rangeIter src b).1 hmb
      have e1 : ((a.column : Int) + dc).toNat = ((b.column : Int) + dc).toNat :=
        congrArg CellAddress.column heq
      have e2 : ((a.row : Int) + dr).toNat = ((b.row : Int) + dr).toNat :=
        congrArg CellAddress.row heq
      apply hne
      obtain ⟨xa, ya⟩ := a
      obtain ⟨xb, yb⟩ := b
      dsimp only at ha1 ha3 hb1 hb3 e1 e2
      simp only [CellAddress.mk.injEq]
      omega
    have hR : (rangeIter src).Pairwise
        (fun a b => addrShift a dc dr ≠ addrShift b dc dr) := by
      refine List.Pairwise.imp_of_mem ?_ (rangeIter_nodup src)
      intro a b hma hmb hne
      exact hshift_inj a hma b hmb hne
    have hpair : (((rangeIter src).filterMap fun a =>
        (lookupCell g a).map fun c =>
          (addrShift a dc dr, translateContent dc dr c)).Pairwise
        (fun x y => x.1 ≠ y.1)) := by
      refine List.Pairwise.filterMap _ ?_ hR
      intro a a' hne b hb b' hb'
      rw [Option.mem_def, Option.map_eq_some'] at hb hb'
      obtain ⟨ca, _, rfl⟩ := hb
      obtain ⟨ca', _, rfl⟩ := hb'
      exact hne
    have hbufmem : (addrShift s dc dr, translateContent dc dr c)
        ∈ (rangeIter src).filterMap fun a =>
          (lookupCell g a).map fun c =>
            (addrShift a dc dr, translateContent dc dr c) := by
      apply List.mem_filterMap.2
      exact ⟨s, hmem, by rw [hlook]; rfl⟩
    show lookupA (writeAll g.cells _) _ = _
    exact lookupA_writeAll_mem _ g.cells _ _ hpair hbufmem

/-- Witness for C7's general clause: the concrete overlapping copy of
`A1:A3` to `A2`, checked through the theorem at source cell `A1`. -/
theorem copy_range_buffers_source_witness :
    lookupCell (copyRangeApply
      ⟨"S", [(⟨1, 1⟩, .value "r1"), (⟨1, 2⟩, .value "r2"),
        (⟨1, 3⟩, .value "r3")], [], []⟩ ⟨⟨1, 1⟩, ⟨1, 3⟩⟩ ⟨1, 2⟩)
      (addrShift ⟨1, 1⟩ ((1 : Nat) - (1 : Nat) : Int) ((2 : Nat) - (1 : Nat) : Int))
      = some (translateContent ((1 : Nat) - (1 : Nat) : Int)
        ((2 : Nat) - (1 : Nat) : Int) (.value "r1")) :=
  copy_range_buffers_source.1
    ⟨"S", [(⟨1, 1⟩, .value "r1"), (⟨1, 2⟩, .value "r2"),
      (⟨1, 3⟩, .value "r3")], [], []⟩ ⟨⟨1, 1⟩, ⟨1, 3⟩⟩ ⟨1, 2⟩
    (copyRangeApply
      ⟨"S", [(⟨1, 1⟩, .value "r1"), (⟨1, 2⟩, .value "r2"),
        (⟨1, 3⟩, .value "r3")], [], []⟩ ⟨⟨1, 1⟩, ⟨1, 3⟩⟩ ⟨1, 2⟩)
    (by decide) ⟨1, 1⟩ (.value "r1") (by decide) (by decide)

end ExcelEngine
